import Mathlib

/-!
Verification of the traffic-count aggregation script
`scripts/histogram_avg_hourly_per_site_day.py`.

The script reads a JSON array of raw records, normalizes each record
(site id, timestamp, count), filters to a requested (year, month),
accumulates per-(site, day) sums and observation counts, derives
site-day averages, aggregates them into a per-day cross-site average
series, and reports statistics / a chart.

Shallow embedding choices:
* Python floats are modelled exactly, as rationals extended with the
  IEEE special values `inf`, `-inf`, `nan` (`JNum`).  Addition and
  division are exact on the rational part and propagate the special
  values as IEEE does; rounding of IEEE doubles is not modelled (all
  claim-relevant computations here are exact in doubles as well).
* Rational arithmetic is implemented through `mkRat` (`qadd`, `qsub`,
  `qdivNat`, `qfloor`, ...) so that every definition evaluates by
  kernel reduction.
* JSON values are modelled by `JValue`; arrays and objects appearing
  as field values are collapsed to the opaque constructors `jarr` /
  `jobj` (the script never inspects them - they only ever fail
  `isinstance` checks or fail to parse).
* Python dict keys compare by value equality (`1 == 1.0 == True`,
  strings by content, never across kinds); this is `pyEq` below, via
  `keyView`.  A `NaN` site id or an unhashable (list/dict) site id
  falls back to object identity resp. raises in Python; both are
  outside this value-based model, so `keyView` sends them to `none`
  (they compare equal to nothing) and the theorems that iterate over
  stored keys assume site ids are value-hashable (`goodKey`).
* `datetime.fromtimestamp(-, tz=utc)` and `datetime.fromisoformat`
  (CPython <= 3.10 semantics, which is what the script's manual
  `'Z'`-replacement targets) are modelled from their documented
  behaviour; they are standard-library collaborators of the script,
  not part of the repository.
-/

set_option maxRecDepth 8000

namespace SbCat

/-! ## Exact rational helpers (kernel-reducible) -/

/-- Exact rational addition, via `mkRat` so that it reduces. -/
def qadd (a b : ℚ) : ℚ := mkRat (a.num * b.den + b.num * a.den) (a.den * b.den)

/-- Exact rational negation. -/
def qneg (a : ℚ) : ℚ := mkRat (-a.num) a.den

/-- Exact rational subtraction. -/
def qsub (a b : ℚ) : ℚ := qadd a (qneg b)

/-- Exact division of a rational by a natural number. -/
def qdivNat (a : ℚ) (n : ℕ) : ℚ := mkRat a.num (a.den * n)

/-- Rational from an integer. -/
def qofInt (z : ℤ) : ℚ := mkRat z 1

/-- Floor of a rational (the denominator is positive, so Euclidean
division of the numerator by it is the floor). -/
def qfloor (a : ℚ) : ℤ := Int.ediv a.num a.den

/-! ## The Python number model -/

/-- A Python float/int value: an exact rational or one of the IEEE
special values.  JSON numbers parsed by `json.load` land here
(`json.load` accepts the `Infinity`/`-Infinity`/`NaN` literals). -/
inductive JNum where
  | fin (q : ℚ)
  | inf
  | ninf
  | nan
deriving DecidableEq

namespace JNum

/-- IEEE addition, exact on finite values. -/
def add : JNum → JNum → JNum
  | fin a, fin b => fin (qadd a b)
  | nan, _ => nan
  | _, nan => nan
  | inf, ninf => nan
  | ninf, inf => nan
  | inf, _ => inf
  | _, inf => inf
  | ninf, _ => ninf
  | _, ninf => ninf

/-- IEEE division by a natural number.  The script only divides by a
guarded positive observation count; the `0` case (a `ZeroDivisionError`
in Python) is given the junk value `nan` and is proved unreachable. -/
def divNat : JNum → ℕ → JNum
  | _, 0 => nan
  | fin q, n + 1 => fin (qdivNat q (n + 1))
  | inf, _ + 1 => inf
  | ninf, _ + 1 => ninf
  | nan, _ + 1 => nan

/-- The Python comparison `x <= 0` (false for `nan` and `inf`,
true for `-inf`). -/
def le0 : JNum → Bool
  | fin q => decide (q ≤ 0)
  | inf => false
  | ninf => true
  | nan => false

/-- The Python comparison `x > 1e12` (`1e12` is exactly `10^12`). -/
def gtTrillion : JNum → Bool
  | fin q => decide ((1000000000000 : ℚ) < q)
  | inf => true
  | ninf => false
  | nan => false

/-- The Python expression `x / 1000.0` (exact; `inf`, `-inf` and `nan`
are fixed points). -/
def div1000 : JNum → JNum
  | fin q => fin (qdivNat q 1000)
  | inf => inf
  | ninf => ninf
  | nan => nan

end JNum

/-- A JSON value as `json.load` produces it.  Arrays and objects in
field position are collapsed to opaque constructors: the script never
looks inside them. -/
inductive JValue where
  | jstr (s : String)
  | jnum (n : JNum)
  | jbool (b : Bool)
  | jnull
  | jarr
  | jobj
deriving DecidableEq

/-- The equality class of a Python value when used as a dict key:
numbers and booleans by numeric value (`True == 1`, `1 == 1.0`),
strings by content, `None` by itself.  `NaN` (equal to nothing by
value) and unhashable values get no class. -/
inductive KeyV where
  | str (s : String)
  | num (q : ℚ)
  | pinf
  | ninf
  | knull
deriving DecidableEq

/-- Key view of a JSON value (see `KeyV`). -/
def keyView : JValue → Option KeyV
  | .jstr s => some (.str s)
  | .jnum (.fin q) => some (.num q)
  | .jnum .inf => some .pinf
  | .jnum .ninf => some .ninf
  | .jnum .nan => none
  | .jbool b => some (.num (if b then 1 else 0))
  | .jnull => some .knull
  | .jarr => none
  | .jobj => none

/-- Python `==` as used by dict key lookup on our values. -/
def pyEq (a b : JValue) : Bool :=
  match keyView a, keyView b with
  | some x, some y => decide (x = y)
  | _, _ => false

/-- A site-day accumulator key: the verbatim site id value paired with
the ISO date string. -/
abbrev SiteKey := JValue × String

/-- Dict equality of two site-day keys (Python tuple equality). -/
def pyEqK (k e : SiteKey) : Bool := pyEq k.1 e.1 && decide (k.2 = e.2)

/-- A site id that Python hashes by value (not `NaN`, not a list or
dict); on such keys the dict model below agrees with Python. -/
def goodKey (k : SiteKey) : Prop := (keyView k.1).isSome = true

instance (k : SiteKey) : Decidable (goodKey k) := by unfold goodKey; infer_instance

/-! ## The datetime model -/

/-- A `datetime.datetime` value: calendar fields, sub-second fraction,
and an optional UTC offset in seconds (`none` = naive). -/
structure DateTime where
  year : ℤ
  month : ℕ
  day : ℕ
  hour : ℕ
  minute : ℕ
  second : ℕ
  frac : ℚ
  tzoff : Option ℚ
deriving DecidableEq

/-- Days since the Unix epoch to (year, month, day) in the proleptic
Gregorian calendar (standard era-based civil-from-days algorithm; all
intermediate divisions have positive divisors, so Euclidean division
is floor division). -/
def civilFromDays (z : ℤ) : ℤ × ℤ × ℤ :=
  let zd := z + 719468
  let era : ℤ := Int.ediv zd 146097
  let doe : ℤ := zd - era * 146097
  let yoe : ℤ := Int.ediv (doe - Int.ediv doe 1460 + Int.ediv doe 36524 - Int.ediv doe 146096) 365
  let y : ℤ := yoe + era * 400
  let doy : ℤ := doe - (365 * yoe + Int.ediv yoe 4 - Int.ediv yoe 100)
  let mp : ℤ := Int.ediv (5 * doy + 2) 153
  let d : ℤ := doy - Int.ediv (153 * mp + 2) 5 + 1
  let m : ℤ := if mp < 10 then mp + 3 else mp - 9
  (if m ≤ 2 then y + 1 else y, m, d)

/-- Modelled standard-library collaborator
`datetime.fromtimestamp(q, tz=timezone.utc)`: epoch seconds to an
aware UTC datetime.  Python raises (`ValueError`/`OverflowError`) for
years outside `datetime`'s 1..9999 range, modelled as `none`; the
month/day bounds in the guard restate the `datetime` constructor's
invariant and always hold for the conversion. -/
def fromtimestampUTC (q : ℚ) : Option DateTime :=
  let days : ℤ := qfloor (qdivNat q 86400)
  let ymd := civilFromDays days
  if 1 ≤ ymd.1 ∧ ymd.1 ≤ 9999 ∧ 1 ≤ ymd.2.1 ∧ ymd.2.1 ≤ 12 ∧ 1 ≤ ymd.2.2 ∧ ymd.2.2 ≤ 31 then
    let sod : ℚ := qsub q (qofInt (days * 86400))
    let s : ℕ := (qfloor sod).toNat
    some { year := ymd.1, month := ymd.2.1.toNat, day := ymd.2.2.toNat,
           hour := s / 3600, minute := s % 3600 / 60, second := s % 60,
           frac := qsub sod (qofInt (qfloor sod)), tzoff := some 0 }
  else none

/-! ## The ISO-8601 parser (`datetime.fromisoformat`, CPython <= 3.10) -/

/-- Leap year test (Python `calendar`/`datetime` rule). -/
def isLeap (y : ℤ) : Bool := Int.emod y 4 = 0 && (decide (Int.emod y 100 ≠ 0) || Int.emod y 400 = 0)

/-- Days in a month of a given year. -/
def daysInMonth (y : ℤ) (m : ℕ) : ℕ :=
  if m = 2 then (if isLeap y then 29 else 28)
  else if m = 4 ∨ m = 6 ∨ m = 9 ∨ m = 11 then 30
  else 31

/-- Two ASCII digits to a number. -/
def digit2 (a b : Char) : Option ℕ :=
  if a.isDigit && b.isDigit then some (10 * (a.toNat - 48) + (b.toNat - 48)) else none

/-- Digit string to a number (all characters must be ASCII digits). -/
def natOfDigitsAux (acc : ℕ) : List Char → Option ℕ
  | [] => some acc
  | c :: rest => if c.isDigit then natOfDigitsAux (10 * acc + (c.toNat - 48)) rest else none

/-- Digit string to a number. -/
def natOfDigits (cs : List Char) : Option ℕ := natOfDigitsAux 0 cs

/-- The date part `YYYY-MM-DD` (exactly ten characters; year `>= 1` is
`datetime.MINYEAR`, four digits bound it by 9999). -/
def parseDateChars : List Char → Option (ℤ × ℕ × ℕ)
  | [y1, y2, y3, y4, '-', m1, m2, '-', d1, d2] =>
    match digit2 y1 y2, digit2 y3 y4, digit2 m1 m2, digit2 d1 d2 with
    | some yh, some yl, some m, some d =>
      let y : ℤ := (100 * yh + yl : ℕ)
      if 1 ≤ y ∧ 1 ≤ m ∧ m ≤ 12 ∧ 1 ≤ d ∧ d ≤ daysInMonth y m then some (y, m, d) else none
    | _, _, _, _ => none
  | _ => none

/-- The time-of-day part `HH[:MM[:SS[.fff|.ffffff]]]` (the whole list
must be consumed); components are range-checked later by the
`datetime` constructor, matching `_parse_hh_mm_ss_ff`. -/
def parseHMSF : List Char → Option (ℕ × ℕ × ℕ × ℚ)
  | [a, b] => (digit2 a b).map fun h => (h, 0, 0, 0)
  | [a, b, ':', c, d] =>
    match digit2 a b, digit2 c d with
    | some h, some m => some (h, m, 0, 0)
    | _, _ => none
  | [a, b, ':', c, d, ':', e, f] =>
    match digit2 a b, digit2 c d, digit2 e f with
    | some h, some m, some s => some (h, m, s, 0)
    | _, _, _ => none
  | a :: b :: ':' :: c :: d :: ':' :: e :: f :: '.' :: fs =>
    match digit2 a b, digit2 c d, digit2 e f with
    | some h, some m, some s =>
      if fs.length = 3 then (natOfDigits fs).map fun x => (h, m, s, mkRat (x * 1000 : ℕ) 1000000)
      else if fs.length = 6 then (natOfDigits fs).map fun x => (h, m, s, mkRat (x : ℕ) 1000000)
      else none
    | _, _, _ => none
  | _ => none

/-- Index of the first `+` or `-` (the UTC-offset marker search). -/
def findSign : List Char → Option ℕ
  | [] => none
  | c :: rest => if c = '+' ∨ c = '-' then some 0 else (findSign rest).map (· + 1)

/-- The UTC-offset part, sign included.  The offset string after the
sign must have length 5, 8 or 15 (`HH:MM`, `HH:MM:SS`,
`HH:MM:SS.ffffff`) and is parsed like a time; the `timezone`
constructor then requires a magnitude strictly below 24 hours (but
does not cap the individual components).  Result in seconds. -/
def parseTzOff : List Char → Option ℚ
  | [] => none
  | sign :: rest =>
    if rest.length = 5 ∨ rest.length = 8 ∨ rest.length = 15 then
      match parseHMSF rest with
      | some (h, m, s, fr) =>
        let mag : ℚ := qadd (qofInt (3600 * h + 60 * m + s : ℕ)) fr
        let off : ℚ := if sign = '-' then qneg mag else mag
        if decide (qneg 86400 < off) && decide (off < 86400) then some off else none
      | none => none
    else none

/-- Split the time part at the first `+` or `-` (the UTC-offset
marker): time substring and offset substring (empty when absent). -/
def splitTz (tcs : List Char) : List Char × List Char :=
  match findSign tcs with
  | none => (tcs, ([] : List Char))
  | some i => (tcs.take i, tcs.drop i)

/-- Modelled standard-library collaborator `datetime.fromisoformat`
(CPython <= 3.10, the documented inverse of `datetime.isoformat`):
`YYYY-MM-DD[*HH[:MM[:SS[.fff[fff]]]][+HH:MM[:SS[.ffffff]]]]` with `*`
any single separator character.  Component ranges are checked as the
`datetime` constructor does. -/
def fromisoformat (s : String) : Option DateTime :=
  match parseDateChars (s.data.take 10) with
  | none => none
  | some (y, mo, d) =>
    match s.data.drop 10 with
    | [] => some { year := y, month := mo, day := d, hour := 0, minute := 0, second := 0,
                   frac := 0, tzoff := none }
    | _sep :: tcs =>
      match parseHMSF (splitTz tcs).1 with
      | none => none
      | some (h, mi, sec, fr) =>
        match (splitTz tcs).2 with
        | [] =>
          if h ≤ 23 ∧ mi ≤ 59 ∧ sec ≤ 59 then
            some { year := y, month := mo, day := d, hour := h, minute := mi, second := sec,
                   frac := fr, tzoff := none }
          else none
        | tz =>
          match parseTzOff tz with
          | none => none
          | some off =>
            if h ≤ 23 ∧ mi ≤ 59 ∧ sec ≤ 59 then
              some { year := y, month := mo, day := d, hour := h, minute := mi, second := sec,
                     frac := fr, tzoff := some off }
            else none

/-! ## The script's timestamp parser (`parse_ts`) -/

/-- The string method `.replace` from line 34/39 of the script,
specialised to pattern `Z` and replacement `+00:00` (single-character
pattern, so plain character-wise substitution). -/
def replaceZchars : List Char → List Char
  | [] => []
  | 'Z' :: rest => '+' :: '0' :: '0' :: ':' :: '0' :: '0' :: replaceZchars rest
  | c :: rest => c :: replaceZchars rest

/-- The expression `ts.replace('Z', '+00:00')` (every occurrence). -/
def replaceZ (s : String) : String := String.mk (replaceZchars s.data)

/-- The expression `ts.split('.')[0]`: the prefix before the first dot. -/
def dotTruncChars : List Char → List Char
  | [] => []
  | '.' :: _ => []
  | c :: rest => c :: dotTruncChars rest

/-- The expression `ts.split('.')[0]` on strings. -/
def dotTrunc (s : String) : String := String.mk (dotTruncChars s.data)

/-- The numeric branch of `parse_ts` (script lines 27-31): divide by
1000 when the value compares `> 1e12`, then
`datetime.fromtimestamp(ts, tz=timezone.utc)`.  The special values
make `fromtimestamp` raise, modelled as `none`. -/
def parse_ts_num (n : JNum) : Option DateTime :=
  let n2 := if n.gtTrillion then n.div1000 else n
  match n2 with
  | .fin q => fromtimestampUTC q
  | _ => none

/-- The script's `parse_ts` (lines 25-42).  Booleans take the numeric
branch (`isinstance(True, int)` holds in Python); a raised
`ValueError` is `none`. -/
def parse_ts : JValue → Option DateTime
  | .jnum n => parse_ts_num n
  | .jbool b => parse_ts_num (.fin (if b then 1 else 0))
  | .jstr s =>
    (match fromisoformat (replaceZ s) with
     | some dt => some dt
     | none => fromisoformat (replaceZ (dotTrunc s)))
  | .jnull => none
  | .jarr => none
  | .jobj => none

/-! ## Records and the flexible field readers -/

/-- A raw input record: a JSON object, i.e. a key-value mapping
(association list with distinct keys, as `json.load` produces). -/
abbrev RawRecord := List (String × JValue)

/-- Python `rec[k]` guarded by `k in rec`. -/
def recGet (k : String) : RawRecord → Option JValue
  | [] => none
  | e :: rest => if e.1 = k then some e.2 else recGet k rest

/-- Probe an ordered list of candidate key names; first present key
wins. -/
def probe (rec : RawRecord) : List String → Option JValue
  | [] => none
  | k :: ks =>
    match recGet k rec with
    | some v => some v
    | none => probe rec ks

/-- Script lines 58-62 (`KeyError` when absent becomes `none`). -/
def get_site_id (rec : RawRecord) : Option JValue :=
  probe rec ["site_id", "siteID", "site", "SITE_ID", "id"]

/-- Script lines 64-68 (returns `None` when absent). -/
def get_counts (rec : RawRecord) : Option JValue :=
  probe rec ["counts", "count", "COUNT", "value"]

/-- Script lines 70-74 (`KeyError` when absent becomes `none`). -/
def get_timestamp (rec : RawRecord) : Option JValue :=
  probe rec ["timestamp", "Timestamp", "TIMESTAMP", "date", "DATE"]

/-- Python `isinstance(v, (int, float))` - booleans are `int`s. -/
def isNum : JValue → Bool
  | .jnum _ => true
  | .jbool _ => true
  | _ => false

/-- The numeric value of a value passing `isNum` (and the result of
`float(cnt)`, which is exact here); junk `nan` otherwise. -/
def numVal : JValue → JNum
  | .jnum n => n
  | .jbool b => .fin (if b then 1 else 0)
  | _ => .nan

/-! ## The normalizer (the body of the filter loop, lines 78-92) -/

/-- Zero-pad to two digits (Python `%02d` as used by
`date.isoformat`). -/
def pad2 (n : ℕ) : String := if n < 10 then "0" ++ toString n else toString n

/-- Zero-pad a `datetime` year (1..9999) to four digits. -/
def pad4 (z : ℤ) : String :=
  let n := z.toNat
  if n < 10 then "000" ++ toString n
  else if n < 100 then "00" ++ toString n
  else if n < 1000 then "0" ++ toString n
  else toString n

/-- The expression `dt.date().isoformat()` (line 89). -/
def dateIso (dt : DateTime) : String :=
  pad4 dt.year ++ "-" ++ pad2 dt.month ++ "-" ++ pad2 dt.day

/-- An accepted sample, as appended to `filtered` on line 89:
`(site_id, dt.date().isoformat(), float(cnt))` with the site id kept
verbatim. -/
abbrev Sample := JValue × String × JNum

/-- The site-day key `(site_id, date_str)` of a sample (line 100). -/
def sampleKey (s : Sample) : SiteKey := (s.1, s.2.1)

/-- One iteration of the filter loop (lines 79-92): `none` models
`continue`, both the explicit ones and the catch-all `except` skip. -/
def normalize (year month : ℤ) (rec : RawRecord) : Option Sample :=
  match get_counts rec with
  | none => none
  | some cv =>
    if isNum cv then
      if (numVal cv).le0 then none
      else
        match get_timestamp rec with
        | none => none
        | some tv =>
          match parse_ts tv with
          | none => none
          | some dt =>
            if dt.year = year ∧ (dt.month : ℤ) = month then
              match get_site_id rec with
              | none => none
              | some site => some (site, dateIso dt, numVal cv)
            else none
    else none

/-- The `filtered` list (lines 77-92). -/
def filteredList (year month : ℤ) (data : List RawRecord) : List Sample :=
  data.filterMap (normalize year month)

/-! ## Dict primitives (insertion-ordered association lists) -/

/-- Dict lookup under an equality test: first matching entry's value. -/
def alookup {κ α : Type} (keq : κ → κ → Bool) (k : κ) : List (κ × α) → Option α
  | [] => none
  | e :: rest => if keq k e.1 then some e.2 else alookup keq k rest

/-- Dict update under an equality test: replace the first matching
entry's value by `f` of it, keeping the stored key and position, or
append `(k, d)` (Python dicts preserve insertion order). -/
def aupd {κ α : Type} (keq : κ → κ → Bool) (k : κ) (f : α → α) (d : α) :
    List (κ × α) → List (κ × α)
  | [] => [(k, d)]
  | e :: rest => if keq k e.1 then (e.1, f e.2) :: rest else e :: aupd keq k f d rest

/-- String equality as a Bool test (dict keyed by date strings). -/
def strEq (a b : String) : Bool := decide (a = b)

/-! ## Stage 1: site-day accumulators (lines 95-108) -/

/-- `totals[key] += cnt` on the `defaultdict(float)` (line 101). -/
def bumpTotals (k : SiteKey) (v : JNum) (m : List (SiteKey × JNum)) : List (SiteKey × JNum) :=
  aupd pyEqK k (fun x => x.add v) ((JNum.fin 0).add v) m

/-- `hours[key] += 1` on the `defaultdict(int)` (line 102). -/
def bumpHours (k : SiteKey) (m : List (SiteKey × ℕ)) : List (SiteKey × ℕ) :=
  aupd pyEqK k (fun x => x + 1) (0 + 1) m

/-- The `totals` accumulator after the loop at lines 99-102. -/
def totalsOf (ss : List Sample) : List (SiteKey × JNum) :=
  ss.foldl (fun m s => bumpTotals (sampleKey s) s.2.2 m) []

/-- The `hours` accumulator after the loop at lines 99-102. -/
def hoursOf (ss : List Sample) : List (SiteKey × ℕ) :=
  ss.foldl (fun m s => bumpHours (sampleKey s) m) []

/-- The `site_day_avgs` list (lines 104-108): for each key of
`totals`, in insertion order, divide by the observation count when it
is positive (the `hours[key]` read on a `defaultdict` defaults to 0). -/
def siteDayAvgsList (ss : List Sample) : List JNum :=
  (totalsOf ss).filterMap fun e =>
    let h := (alookup pyEqK e.1 (hoursOf ss)).getD 0
    if 0 < h then some (e.2.divNat h) else none

/-- The keyed reading of Stage 1's product: the site-day average the
accumulators determine for a key (what lines 104-108 append and what
line 125 recomputes). -/
def SiteDayAverage (ss : List Sample) (k : SiteKey) : Option JNum :=
  match alookup pyEqK k (totalsOf ss), alookup pyEqK k (hoursOf ss) with
  | some t, some h => if 0 < h then some (t.divNat h) else none
  | _, _ => none

/-- The `site_day_avgs` entries keyed by their site-day key (same
guard and order as lines 104-108, keys kept). -/
def siteDayEntries (ss : List Sample) : List (SiteKey × JNum) :=
  (totalsOf ss).filterMap fun e =>
    let h := (alookup pyEqK e.1 (hoursOf ss)).getD 0
    if 0 < h then some (e.1, e.2.divNat h) else none

/-! ## Stage 2: day-level aggregation (lines 120-130) -/

/-- `day_to_site_avgs[date_str].append(avg)` on the
`defaultdict(list)` (line 126). -/
def pushDay (d : String) (v : JNum) (m : List (String × List JNum)) : List (String × List JNum) :=
  aupd strEq d (fun l => l ++ [v]) ([] ++ [v]) m

/-- The `day_to_site_avgs` mapping (lines 122-126): iterate the keys
of `hours`, recompute `totals[k] / hours[k]`, and append per date. -/
def dayMapOf (ss : List Sample) : List (String × List JNum) :=
  (hoursOf ss).foldl
    (fun m e =>
      pushDay e.1.2
        (((alookup pyEqK e.1 (totalsOf ss)).getD (.fin 0)).divNat
          ((alookup pyEqK e.1 (hoursOf ss)).getD 0)) m)
    []

/-- Lexicographic (code-point) comparison of strings, the order Python
`sorted` uses on the ISO date strings. -/
def charsLe : List Char → List Char → Bool
  | [], _ => true
  | _ :: _, [] => false
  | a :: as, b :: bs => if a = b then charsLe as bs else decide (a < b)

/-- Sorted insertion of a date string. -/
def insertStr (d : String) : List String → List String
  | [] => [d]
  | e :: rest => if charsLe d.data e.data then d :: e :: rest else e :: insertStr d rest

/-- Sorting (extensionally `sorted`, line 129: a sorted permutation of
a duplicate-free key list is unique). -/
def sortStrs : List String → List String
  | [] => []
  | d :: rest => insertStr d (sortStrs rest)

/-- The `sorted_days` list (line 129). -/
def sortedDays (ss : List Sample) : List String := sortStrs ((dayMapOf ss).map (·.1))

/-- Running float sum, as the accumulations and `statistics.mean`
produce it (exact on the rational part). -/
def sumJ (l : List JNum) : JNum := l.foldl JNum.add (.fin 0)

/-- `statistics.mean` (exact; raises on an empty list in Python - the
call sites are guarded, and the junk value for length 0 is `nan`). -/
def meanJ (l : List JNum) : JNum := (sumJ l).divNat l.length

/-- The day series `zip(sorted_days, y_values)` (lines 129-130); the
`day_to_site_avgs[d]` read is a `defaultdict` lookup. -/
def daySeries (ss : List Sample) : List (String × JNum) :=
  (sortedDays ss).map fun d => (d, meanJ ((alookup strEq d (dayMapOf ss)).getD []))

/-! ## The reporter boundary (lines 110-144) -/

/-- The observable outcome of `main` after filtering (file reading,
argument parsing and the plotting calls are external collaborators):
either the single no-data notice and a normal return with no chart
(lines 110-112), or a report carrying the data the statistics lines
print (count and the `site_day_avgs` they are computed from), the
day series that is plotted, and the chart file name that is written. -/
inductive Output where
  | noData : Output
  | report (nSiteDays : ℕ) (siteDayAvgs : List JNum) (series : List (String × JNum))
      (chartFile : String) : Output
deriving DecidableEq

/-- The output file name (line 142): month not zero-padded. -/
def chartFileName (year month : ℤ) : String :=
  "daily_avg_hourly_across_sites_" ++ toString year ++ "_" ++ toString month ++ ".png"

/-- The tail of `main` (lines 94-144) on the accepted samples. -/
def runPipeline (year month : ℤ) (data : List RawRecord) : Output :=
  let samples := filteredList year month data
  let avgs := siteDayAvgsList samples
  if avgs.isEmpty then Output.noData
  else Output.report avgs.length avgs (daySeries samples) (chartFileName year month)

/-! ## Concrete inputs used by witnesses and counterexamples -/

/-- Key name `site_id`. -/
def keySiteId : String := "site_id"

/-- Key name `timestamp`. -/
def keyTimestamp : String := "timestamp"

/-- Key name `count`. -/
def keyCount : String := "count"

/-- Example timestamp `2022-07-01T00:00:00Z`. -/
def tsJul1a : String := "2022-07-01T00:00:00Z"

/-- Example timestamp `2022-07-01T01:00:00Z`. -/
def tsJul1b : String := "2022-07-01T01:00:00Z"

/-- Example date string `2022-07-01`. -/
def dateJul1 : String := "2022-07-01"

/-- Example site id `A`. -/
def siteA : String := "A"

/-- Example site id `B`. -/
def siteB : String := "B"

/-- Scenario record: site `A`, midnight, count 10. -/
def recA0 : RawRecord :=
  [(keySiteId, .jstr siteA), (keyTimestamp, .jstr tsJul1a), (keyCount, .jnum (.fin 10))]

/-- Scenario record: site `A`, one o'clock, count 20. -/
def recA1 : RawRecord :=
  [(keySiteId, .jstr siteA), (keyTimestamp, .jstr tsJul1b), (keyCount, .jnum (.fin 20))]

/-- Scenario record: site `B`, midnight, count 100. -/
def recB0 : RawRecord :=
  [(keySiteId, .jstr siteB), (keyTimestamp, .jstr tsJul1a), (keyCount, .jnum (.fin 100))]

/-- The three-record scenario input of the specification. -/
def scenarioData : List RawRecord := [recA0, recA1, recB0]

/-- Example timestamp `2022-07-15T10:00:00Z`. -/
def tsJul15 : String := "2022-07-15T10:00:00Z"

/-- Example timestamp with a sub-second fraction,
`2022-07-15T10:00:00.123Z`. -/
def tsJul15ms : String := "2022-07-15T10:00:00.123Z"

/-- Example date string `2022-07-15`. -/
def dateJul15 : String := "2022-07-15"

/-- A string whose ISO separator character is a literal `Z`
(`2022-07-15Z10:00`): its only `Z` is not trailing. -/
def sepZstr : String := "2022-07-15Z10:00"

/-- Example site id: the string `1`. -/
def siteOne : String := "1"

/-- The datetime `2022-07-01T00:00:00+00:00`. -/
def dtJul1a : DateTime :=
  { year := 2022, month := 7, day := 1, hour := 0, minute := 0, second := 0,
    frac := 0, tzoff := some 0 }

/-- The datetime `2022-07-15T10:00:00+00:00`. -/
def dtJul15 : DateTime :=
  { year := 2022, month := 7, day := 15, hour := 10, minute := 0, second := 0,
    frac := 0, tzoff := some 0 }

/-- A record whose count is the float `inf` ( JSON `Infinity`). -/
def recInf : RawRecord :=
  [(keySiteId, .jstr siteA), (keyTimestamp, .jstr tsJul1a), (keyCount, .jnum .inf)]

/-- A record whose count is 0. -/
def recZero : RawRecord :=
  [(keySiteId, .jstr siteA), (keyTimestamp, .jstr tsJul1a), (keyCount, .jnum (.fin 0))]

/-- A record whose count is -5. -/
def recNeg5 : RawRecord :=
  [(keySiteId, .jstr siteA), (keyTimestamp, .jstr tsJul1a), (keyCount, .jnum (.fin (-5)))]

/-- A record whose site id is the string `1`. -/
def rec10a : RawRecord :=
  [(keySiteId, .jstr siteOne), (keyTimestamp, .jstr tsJul15), (keyCount, .jnum (.fin 10))]

/-- A record whose site id is the number `1`, same date. -/
def rec10b : RawRecord :=
  [(keySiteId, .jnum (.fin 1)), (keyTimestamp, .jstr tsJul15), (keyCount, .jnum (.fin 30))]

/-- The two-record input contrasting string and numeric site ids. -/
def data10 : List RawRecord := [rec10a, rec10b]

/-! ## Readings of the specification's wording (for refinement
comparisons; these follow the spec's words, not the code) -/

/-- The specification's wording in C3: a count value that is a finite
number (a boolean is a Python number with a finite value; `NaN` and
the infinities are numbers but not finite). -/
def isFiniteNumber : JValue → Bool
  | .jnum (.fin _) => true
  | .jbool _ => true
  | _ => false

/-- The specification's wording in C4: the magnitude of the numeric
timestamp exceeds 10^12. -/
def specMagnitudeLarge (q : ℚ) : Bool :=
  decide ((1000000000000 : ℚ) < q) || decide (q < mkRat (-1000000000000) 1)

/-- The specification's wording in C5: accept a trailing literal `Z`
as UTC offset, i.e. replace it - and only it - by `+00:00`. -/
def zrepTrailing (s : String) : String :=
  match s.data.getLast? with
  | some c =>
    if c = 'Z' then String.mk (s.data.dropLast ++ ['+', '0', '0', ':', '0', '0']) else s
  | none => s

/-- The specification's wording in C5, assembled: strict ISO parse
accepting a trailing `Z`; on failure truncate at the first dot and
retry the same parse. -/
def specStrParse (s : String) : Option DateTime :=
  match fromisoformat (zrepTrailing s) with
  | some dt => some dt
  | none => fromisoformat (zrepTrailing (dotTrunc s))

/-! ## Key-equality facts -/

lemma pyEq_eq_true_iff {a b : JValue} :
    pyEq a b = true ↔ ((keyView a).isSome ∧ keyView a = keyView b) := by
  unfold pyEq
  cases ha : keyView a <;> cases hb : keyView b <;> simp_all

lemma pyEq_symm (a b : JValue) : pyEq a b = pyEq b a := by
  unfold pyEq
  cases keyView a <;> cases keyView b <;> simp
  exact eq_comm

lemma pyEq_trans_eq {a b : JValue} (h : pyEq a b = true) (c : JValue) :
    pyEq a c = pyEq b c := by
  rcases pyEq_eq_true_iff.mp h with ⟨_, hab⟩
  unfold pyEq
  rw [hab]

lemma pyEqK_symm (k e : SiteKey) : pyEqK k e = pyEqK e k := by
  unfold pyEqK
  rw [pyEq_symm]
  by_cases h : k.2 = e.2 <;> simp [h, Eq.comm]

lemma pyEqK_trans_eq {a b : SiteKey} (h : pyEqK a b = true) (c : SiteKey) :
    pyEqK a c = pyEqK b c := by
  unfold pyEqK at *
  simp only [Bool.and_eq_true, decide_eq_true_eq] at h
  rw [pyEq_trans_eq h.1, h.2]

lemma pyEqK_refl_of_good {k : SiteKey} (h : goodKey k) : pyEqK k k = true := by
  unfold pyEqK
  have : pyEq k.1 k.1 = true := pyEq_eq_true_iff.mpr ⟨h, rfl⟩
  simp [this]

lemma goodKey_of_pyEqK {a b : SiteKey} (h : pyEqK a b = true) : goodKey a := by
  unfold pyEqK at h
  simp only [Bool.and_eq_true, decide_eq_true_eq] at h
  exact (pyEq_eq_true_iff.mp h.1).1

lemma strEq_symm (a b : String) : strEq a b = strEq b a := by
  unfold strEq
  exact decide_eq_decide.mpr eq_comm

lemma strEq_trans_eq {a b : String} (h : strEq a b = true) (c : String) :
    strEq a c = strEq b c := by
  unfold strEq at *
  rw [decide_eq_true_eq.mp h]

lemma strEq_refl (a : String) : strEq a a = true := by
  unfold strEq
  exact decide_eq_true rfl

/-! ## Generic dict lemmas -/

section DictLemmas

variable {κ α β : Type} (keq : κ → κ → Bool)

lemma alookup_congr (htr : ∀ a b, keq a b = true → ∀ c, keq a c = keq b c)
    {k k' : κ} (hkk : keq k k' = true) (m : List (κ × α)) :
    alookup keq k m = alookup keq k' m := by
  induction m with
  | nil => rfl
  | cons e rest ih => simp only [alookup, htr k k' hkk e.1, ih]

lemma alookup_aupd (hsy : ∀ a b, keq a b = keq b a)
    (htr : ∀ a b, keq a b = true → ∀ c, keq a c = keq b c)
    (k k' : κ) (f : α → α) (d : α) (m : List (κ × α)) :
    alookup keq k (aupd keq k' f d m) =
      if keq k k' = true then some ((alookup keq k' m).elim d f)
      else alookup keq k m := by
  induction m with
  | nil =>
    by_cases h : keq k k' = true <;> simp [alookup, aupd, h]
  | cons e rest ih =>
    by_cases he : keq k' e.1 = true
    · have hke : keq k e.1 = keq k k' := by
        have h1 : keq e.1 k' = true := by rw [hsy e.1 k']; exact he
        have h2 := htr e.1 k' h1 k
        rw [hsy k e.1, h2, hsy k' k]
      by_cases hk : keq k k' = true
      · simp [aupd, he, alookup, hke, hk]
      · simp [aupd, he, alookup, hke, hk, Bool.of_not_eq_true hk]
    · by_cases hk : keq k e.1 = true
      · have hkk : keq k k' = false := by
          have := htr k e.1 hk k'
          rw [this, hsy e.1 k', Bool.eq_false_iff]
          intro hc
          exact he hc
        simp [aupd, Bool.of_not_eq_true he, alookup, hk, hkk]
      · simp only [aupd, Bool.of_not_eq_true he, if_neg he, alookup,
          if_neg hk, ih]
        by_cases hkk : keq k k' = true
        · simp [hkk, alookup, hk]
        · simp [hkk]

lemma alookup_foldl_aupd (hsy : ∀ a b, keq a b = keq b a)
    (htr : ∀ a b, keq a b = true → ∀ c, keq a c = keq b c)
    (step : β → α → α) (z : α) (l : List (κ × β)) :
    ∀ (m : List (κ × α)) (k : κ),
      (∀ a, alookup keq k m = some a →
        alookup keq k (l.foldl (fun m p => aupd keq p.1 (step p.2) (step p.2 z) m) m) =
          some (((l.filter fun p => keq k p.1).map (·.2)).foldl (fun a v => step v a) a))
      ∧ (alookup keq k m = none → (l.filter fun p => keq k p.1) = [] →
        alookup keq k (l.foldl (fun m p => aupd keq p.1 (step p.2) (step p.2 z) m) m) = none)
      ∧ (alookup keq k m = none → (l.filter fun p => keq k p.1) ≠ [] →
        alookup keq k (l.foldl (fun m p => aupd keq p.1 (step p.2) (step p.2 z) m) m) =
          some (((l.filter fun p => keq k p.1).map (·.2)).foldl (fun a v => step v a) z)) := by
  induction l with
  | nil =>
    intro m k
    refine ⟨fun a ha => ?_, fun ha _ => ?_, fun _ hne => absurd rfl hne⟩
    · simpa using ha
    · simpa using ha
  | cons p l ih =>
    intro m k
    have hl := alookup_aupd keq hsy htr k p.1 (step p.2) (step p.2 z) m
    by_cases hk : keq k p.1 = true
    · have hcong : alookup keq k m = alookup keq p.1 m := alookup_congr keq htr hk m
      have hfc : (p :: l).filter (fun p => keq k p.1) = p :: l.filter (fun p => keq k p.1) :=
        List.filter_cons_of_pos hk
      refine ⟨fun a ha => ?_, fun ha hemp => ?_, fun ha _ => ?_⟩
      · have hm' : alookup keq k (aupd keq p.1 (step p.2) (step p.2 z) m) = some (step p.2 a) := by
          rw [hl, if_pos hk, ← hcong, ha]
          rfl
        have := (ih (aupd keq p.1 (step p.2) (step p.2 z) m) k).1 (step p.2 a) hm'
        simpa [hfc] using this
      · rw [hfc] at hemp
        exact absurd hemp (List.cons_ne_nil _ _)
      · have hm' : alookup keq k (aupd keq p.1 (step p.2) (step p.2 z) m) =
            some (step p.2 z) := by
          rw [hl, if_pos hk, ← hcong, ha]
          rfl
        have := (ih (aupd keq p.1 (step p.2) (step p.2 z) m) k).1 (step p.2 z) hm'
        simpa [hfc] using this
    · have hkf : keq k p.1 = false := Bool.of_not_eq_true hk
      have hcong : alookup keq k (aupd keq p.1 (step p.2) (step p.2 z) m) = alookup keq k m := by
        rw [hl, if_neg hk]
      have hfc : (p :: l).filter (fun p => keq k p.1) = l.filter (fun p => keq k p.1) :=
        List.filter_cons_of_neg (by simp [hkf])
      refine ⟨fun a ha => ?_, fun ha hemp => ?_, fun ha hne => ?_⟩
      · have := (ih (aupd keq p.1 (step p.2) (step p.2 z) m) k).1 a (by rw [hcong]; exact ha)
        simpa [hfc] using this
      · rw [hfc] at hemp
        have := (ih (aupd keq p.1 (step p.2) (step p.2 z) m) k).2.1 (by rw [hcong]; exact ha) hemp
        simpa using this
      · rw [hfc] at hne
        have := (ih (aupd keq p.1 (step p.2) (step p.2 z) m) k).2.2 (by rw [hcong]; exact ha) hne
        simpa [hfc] using this

lemma mem_aupd_key (k : κ) (f : α → α) (d : α) (m : List (κ × α)) :
    ∀ e ∈ aupd keq k f d m, e.1 = k ∨ ∃ e' ∈ m, e.1 = e'.1 := by
  induction m with
  | nil =>
    intro e he
    simp [aupd] at he
    simp [he]
  | cons x rest ih =>
    intro e he
    by_cases hx : keq k x.1 = true
    · simp only [aupd, if_pos hx] at he
      rcases List.mem_cons.mp he with h | h
      · right; exact ⟨x, List.mem_cons_self x rest, by rw [h]⟩
      · right
        exact ⟨e, List.mem_cons_of_mem x h, rfl⟩
    · simp only [aupd, if_neg hx] at he
      rcases List.mem_cons.mp he with h | h
      · right; exact ⟨x, List.mem_cons_self x rest, by rw [h]⟩
      · rcases ih e h with h1 | ⟨e', he', h2⟩
        · left; exact h1
        · right; exact ⟨e', List.mem_cons_of_mem x he', h2⟩

lemma mem_aupd_val (k : κ) (f : α → α) (d : α) (m : List (κ × α)) {P : α → Prop}
    (hm : ∀ e ∈ m, P e.2) (hd : P d) (hf : ∀ a, P a → P (f a)) :
    ∀ e ∈ aupd keq k f d m, P e.2 := by
  induction m with
  | nil =>
    intro e he
    simp [aupd] at he
    simp [he, hd]
  | cons x rest ih =>
    intro e he
    by_cases hx : keq k x.1 = true
    · simp only [aupd, if_pos hx] at he
      rcases List.mem_cons.mp he with h | h
      · rw [h]
        exact hf x.2 (hm x (List.mem_cons_self x rest))
      · exact hm e (List.mem_cons_of_mem x h)
    · simp only [aupd, if_neg hx] at he
      rcases List.mem_cons.mp he with h | h
      · rw [h]
        exact hm x (List.mem_cons_self x rest)
      · exact ih (fun e' he' => hm e' (List.mem_cons_of_mem x he')) e h

lemma aupd_pairwise (hsy : ∀ a b, keq a b = keq b a) (k : κ) (f : α → α) (d : α)
    (m : List (κ × α)) (hm : List.Pairwise (fun a b => keq a.1 b.1 = false) m) :
    List.Pairwise (fun a b => keq a.1 b.1 = false) (aupd keq k f d m) := by
  induction m with
  | nil => simp [aupd]
  | cons x rest ih =>
    rcases List.pairwise_cons.mp hm with ⟨hx, hrest⟩
    by_cases hk : keq k x.1 = true
    · simp only [aupd, if_pos hk]
      exact List.pairwise_cons.mpr ⟨hx, hrest⟩
    · simp only [aupd, if_neg hk]
      refine List.pairwise_cons.mpr ⟨?_, ih hrest⟩
      intro e he
      rcases mem_aupd_key keq k f d rest e he with h1 | ⟨e', he', h2⟩
      · rw [h1, hsy x.1 k, Bool.eq_false_iff]
        intro hc
        exact (Bool.eq_false_iff.mp (Bool.of_not_eq_true hk)) hc
      · rw [h2]
        exact hx e' he'

lemma self_alookup (hsy : ∀ a b, keq a b = keq b a) (m : List (κ × α))
    (hm : List.Pairwise (fun a b => keq a.1 b.1 = false) m) :
    ∀ e ∈ m, keq e.1 e.1 = true → alookup keq e.1 m = some e.2 := by
  induction m with
  | nil => intro e he; simp at he
  | cons x rest ih =>
    rcases List.pairwise_cons.mp hm with ⟨hx, hrest⟩
    intro e he hrefl
    rcases List.mem_cons.mp he with h | h
    · subst h
      simp [alookup, hrefl]
    · have hne : keq e.1 x.1 = false := by rw [hsy]; exact hx e h
      simp only [alookup, hne]
      simpa using ih hrest e h hrefl

lemma alookup_some_key (k : κ) (m : List (κ × α)) {v : α} (h : alookup keq k m = some v) :
    ∃ e ∈ m, keq k e.1 = true ∧ e.2 = v := by
  induction m with
  | nil => simp [alookup] at h
  | cons x rest ih =>
    by_cases hx : keq k x.1 = true
    · simp only [alookup, if_pos hx, Option.some.injEq] at h
      exact ⟨x, List.mem_cons_self x rest, hx, h⟩
    · simp only [alookup, if_neg hx] at h
      rcases ih h with ⟨e, he, h1, h2⟩
      exact ⟨e, List.mem_cons_of_mem x he, h1, h2⟩

lemma alookup_isSome_of_mem (k : κ) (m : List (κ × α)) (hrefl : keq k k = true)
    (h : ∃ e ∈ m, e.1 = k) : ∃ v, alookup keq k m = some v := by
  induction m with
  | nil => simp at h
  | cons x rest ih =>
    by_cases hx : keq k x.1 = true
    · exact ⟨x.2, by simp [alookup, hx]⟩
    · rcases h with ⟨e, he, hek⟩
      rcases List.mem_cons.mp he with h1 | h1
      · exfalso
        have hx1 : x.1 = k := by rw [← h1, hek]
        exact hx (by rw [hx1]; exact hrefl)
      · rcases ih ⟨e, h1, hek⟩ with ⟨v, hv⟩
        exact ⟨v, by simp [alookup, hx, hv]⟩

lemma foldl_aupd_pairwise (hsy : ∀ a b, keq a b = keq b a)
    (step : β → α → α) (z : α) (l : List (κ × β)) :
    ∀ m : List (κ × α), List.Pairwise (fun a b => keq a.1 b.1 = false) m →
      List.Pairwise (fun a b => keq a.1 b.1 = false)
        (l.foldl (fun m p => aupd keq p.1 (step p.2) (step p.2 z) m) m) := by
  induction l with
  | nil => intro m hm; exact hm
  | cons p l ih =>
    intro m hm
    exact ih _ (aupd_pairwise keq hsy p.1 (step p.2) (step p.2 z) m hm)

lemma foldl_aupd_provenance (step : β → α → α) (z : α) (l : List (κ × β)) :
    ∀ m : List (κ × α),
      ∀ e ∈ l.foldl (fun m p => aupd keq p.1 (step p.2) (step p.2 z) m) m,
        (∃ e' ∈ m, e.1 = e'.1) ∨ ∃ p ∈ l, e.1 = p.1 := by
  induction l with
  | nil =>
    intro m e he
    exact Or.inl ⟨e, he, rfl⟩
  | cons p l ih =>
    intro m e he
    rcases ih _ e he with ⟨e', he', h1⟩ | ⟨p', hp', h1⟩
    · rcases mem_aupd_key keq p.1 (step p.2) (step p.2 z) m e' he' with h2 | ⟨e'', he'', h2⟩
      · exact Or.inr ⟨p, List.mem_cons_self p l, by rw [h1, h2]⟩
      · exact Or.inl ⟨e'', he'', by rw [h1, h2]⟩
    · exact Or.inr ⟨p', List.mem_cons_of_mem p hp', h1⟩

lemma foldl_aupd_val {P : α → Prop} (step : β → α → α) (z : α) (l : List (κ × β))
    (hstep : ∀ b a, P a → P (step b a)) (hz : ∀ b, P (step b z)) :
    ∀ m : List (κ × α), (∀ e ∈ m, P e.2) →
      ∀ e ∈ l.foldl (fun m p => aupd keq p.1 (step p.2) (step p.2 z) m) m, P e.2 := by
  induction l with
  | nil => intro m hm e he; exact hm e he
  | cons p l ih =>
    intro m hm e he
    exact ih _ (mem_aupd_val keq p.1 (step p.2) (step p.2 z) m hm (hz p.2) (hstep p.2)) e he

lemma aupd_keys_congr {α₁ α₂ : Type} (k : κ) (f₁ : α₁ → α₁) (d₁ : α₁) (f₂ : α₂ → α₂)
    (d₂ : α₂) (m₁ : List (κ × α₁)) (m₂ : List (κ × α₂)) (h : m₁.map (·.1) = m₂.map (·.1)) :
    (aupd keq k f₁ d₁ m₁).map (·.1) = (aupd keq k f₂ d₂ m₂).map (·.1) := by
  induction m₁ generalizing m₂ with
  | nil =>
    cases m₂ with
    | nil => simp [aupd]
    | cons y rest₂ => simp at h
  | cons x rest ih =>
    cases m₂ with
    | nil => simp at h
    | cons y rest₂ =>
      simp only [List.map_cons, List.cons.injEq] at h
      by_cases hk : keq k x.1 = true
      · have hk2 : keq k y.1 = true := by rw [← h.1]; exact hk
        simp [aupd, hk, hk2, h.1, h.2]
      · have hk2 : ¬ keq k y.1 = true := by rw [← h.1]; exact hk
        simp only [aupd, if_neg hk, if_neg hk2, List.map_cons, h.1]
        rw [ih rest₂ h.2]

end DictLemmas

/-! ## Stage-1 accumulator characterizations -/

lemma foldl_count {γ : Type} (vs : List γ) : ∀ a : ℕ, vs.foldl (fun a _ => a + 1) a = a + vs.length := by
  induction vs with
  | nil => intro a; simp
  | cons v vs ih =>
    intro a
    simp only [List.foldl, ih (a + 1), List.length_cons]
    omega

lemma alookup_totalsOf (ss : List Sample) (k : SiteKey) :
    alookup pyEqK k (totalsOf ss) =
      if (ss.filter fun s => pyEqK k (sampleKey s)) = [] then none
      else some (sumJ ((ss.filter fun s => pyEqK k (sampleKey s)).map (·.2.2))) := by
  have hfold : totalsOf ss =
      (ss.map fun s => (sampleKey s, s.2.2)).foldl
        (fun m p => aupd pyEqK p.1 ((fun v x => JNum.add x v) p.2)
          ((fun v x => JNum.add x v) p.2 (JNum.fin 0)) m) [] := by
    unfold totalsOf bumpTotals
    rw [List.foldl_map]
  have h := alookup_foldl_aupd pyEqK pyEqK_symm (fun a b hab c => pyEqK_trans_eq hab c)
    (fun v x => JNum.add x v) (JNum.fin 0) (ss.map fun s => (sampleKey s, s.2.2)) [] k
  have hfl : ((ss.map fun s => (sampleKey s, s.2.2)).filter fun p => pyEqK k p.1) =
      (ss.filter fun s => pyEqK k (sampleKey s)).map fun s => (sampleKey s, s.2.2) := by
    rw [List.filter_map]
    rfl
  by_cases hemp : (ss.filter fun s => pyEqK k (sampleKey s)) = []
  · rw [if_pos hemp, hfold]
    exact h.2.1 rfl (by rw [hfl, hemp]; rfl)
  · rw [if_neg hemp, hfold]
    have hne : ((ss.map fun s => (sampleKey s, s.2.2)).filter fun p => pyEqK k p.1) ≠ [] := by
      rw [hfl]
      simpa using hemp
    have := h.2.2 rfl hne
    rw [this, hfl, List.map_map]
    rfl

lemma alookup_hoursOf (ss : List Sample) (k : SiteKey) :
    alookup pyEqK k (hoursOf ss) =
      if (ss.filter fun s => pyEqK k (sampleKey s)) = [] then none
      else some (ss.filter fun s => pyEqK k (sampleKey s)).length := by
  have hfold : hoursOf ss =
      (ss.map fun s => (sampleKey s, s.2.2)).foldl
        (fun m p => aupd pyEqK p.1 ((fun (_ : JNum) (x : ℕ) => x + 1) p.2)
          ((fun (_ : JNum) (x : ℕ) => x + 1) p.2 0) m) [] := by
    unfold hoursOf bumpHours
    rw [List.foldl_map]
  have h := alookup_foldl_aupd pyEqK pyEqK_symm (fun a b hab c => pyEqK_trans_eq hab c)
    (fun (_ : JNum) (x : ℕ) => x + 1) 0 (ss.map fun s => (sampleKey s, s.2.2)) [] k
  have hfl : ((ss.map fun s => (sampleKey s, s.2.2)).filter fun p => pyEqK k p.1) =
      (ss.filter fun s => pyEqK k (sampleKey s)).map fun s => (sampleKey s, s.2.2) := by
    rw [List.filter_map]
    rfl
  by_cases hemp : (ss.filter fun s => pyEqK k (sampleKey s)) = []
  · rw [if_pos hemp, hfold]
    exact h.2.1 rfl (by rw [hfl, hemp]; rfl)
  · rw [if_neg hemp, hfold]
    have hne : ((ss.map fun s => (sampleKey s, s.2.2)).filter fun p => pyEqK k p.1) ≠ [] := by
      rw [hfl]
      simpa using hemp
    have := h.2.2 rfl hne
    rw [this, hfl, List.map_map, foldl_count]
    simp

lemma pairwise_totalsOf (ss : List Sample) :
    List.Pairwise (fun a b => pyEqK a.1 b.1 = false) (totalsOf ss) := by
  unfold totalsOf bumpTotals
  have h := foldl_aupd_pairwise pyEqK pyEqK_symm (fun v x => JNum.add x v) (JNum.fin 0)
    (ss.map fun s => (sampleKey s, s.2.2)) [] (by simp)
  rw [List.foldl_map] at h
  exact h

lemma pairwise_hoursOf (ss : List Sample) :
    List.Pairwise (fun a b => pyEqK a.1 b.1 = false) (hoursOf ss) := by
  unfold hoursOf bumpHours
  have h := foldl_aupd_pairwise pyEqK pyEqK_symm (fun (_ : JNum) (x : ℕ) => x + 1) 0
    (ss.map fun s => (sampleKey s, s.2.2)) [] (by simp)
  rw [List.foldl_map] at h
  exact h

lemma provenance_totalsOf (ss : List Sample) :
    ∀ e ∈ totalsOf ss, ∃ s ∈ ss, e.1 = sampleKey s := by
  unfold totalsOf bumpTotals
  intro e he
  have h := foldl_aupd_provenance pyEqK (fun v x => JNum.add x v) (JNum.fin 0)
    (ss.map fun s => (sampleKey s, s.2.2)) []
  rw [List.foldl_map] at h
  rcases h e he with ⟨e', he', _⟩ | ⟨p, hp, h1⟩
  · simp at he'
  · rcases List.mem_map.mp hp with ⟨s, hs, h2⟩
    exact ⟨s, hs, by rw [h1, ← h2]⟩

lemma provenance_hoursOf (ss : List Sample) :
    ∀ e ∈ hoursOf ss, ∃ s ∈ ss, e.1 = sampleKey s := by
  unfold hoursOf bumpHours
  intro e he
  have h := foldl_aupd_provenance pyEqK (fun (_ : JNum) (x : ℕ) => x + 1) 0
    (ss.map fun s => (sampleKey s, s.2.2)) []
  rw [List.foldl_map] at h
  rcases h e he with ⟨e', he', _⟩ | ⟨p, hp, h1⟩
  · simp at he'
  · rcases List.mem_map.mp hp with ⟨s, hs, h2⟩
    exact ⟨s, hs, by rw [h1, ← h2]⟩

lemma hoursOf_ge_one (ss : List Sample) : ∀ e ∈ hoursOf ss, 1 ≤ e.2 := by
  unfold hoursOf bumpHours
  intro e he
  have h := foldl_aupd_val pyEqK (P := fun n => 1 ≤ n) (fun (_ : JNum) (x : ℕ) => x + 1) 0
    (ss.map fun s => (sampleKey s, s.2.2)) (fun _ a _ => by show 1 ≤ a + 1; omega)
    (fun _ => by show 1 ≤ 0 + 1; omega) [] (by simp)
  rw [List.foldl_map] at h
  exact h e he

lemma totals_hours_keys (ss : List Sample) :
    (totalsOf ss).map (·.1) = (hoursOf ss).map (·.1) := by
  suffices h : ∀ (l : List Sample) (m₁ : List (SiteKey × JNum)) (m₂ : List (SiteKey × ℕ)),
      m₁.map (·.1) = m₂.map (·.1) →
      (l.foldl (fun m s => bumpTotals (sampleKey s) s.2.2 m) m₁).map (·.1) =
        (l.foldl (fun m s => bumpHours (sampleKey s) m) m₂).map (·.1) by
    exact h ss [] [] rfl
  intro l
  induction l with
  | nil => intro m₁ m₂ h; exact h
  | cons s rest ih =>
    intro m₁ m₂ h
    exact ih _ _ (aupd_keys_congr pyEqK (sampleKey s) _ _ _ _ m₁ m₂ h)

lemma length_filterMap_of_forall_isSome {γ δ : Type} (F : γ → Option δ) :
    ∀ l : List γ, (∀ e ∈ l, (F e).isSome = true) → (l.filterMap F).length = l.length := by
  intro l
  induction l with
  | nil => intro _; rfl
  | cons x rest ih =>
    intro h
    have hx := h x (List.mem_cons_self x rest)
    rcases Option.isSome_iff_exists.mp hx with ⟨v, hv⟩
    simp only [List.filterMap_cons, hv, List.length_cons]
    rw [ih fun e he => h e (List.mem_cons_of_mem x he)]

/-! ## Claim C1 -/

/-- C1: for every accepted input, Stage 1 assigns to each (site, day)
key with `n >= 1` accepted samples the site-day average
`sum of counts / n`, and assigns nothing to a key with zero samples. -/
theorem c1_stage1_site_day_average (year month : ℤ) (data : List RawRecord) (k : SiteKey) :
    ((filteredList year month data).filter (fun s => pyEqK k (sampleKey s)) ≠ [] →
      SiteDayAverage (filteredList year month data) k =
        some ((sumJ (((filteredList year month data).filter
              (fun s => pyEqK k (sampleKey s))).map (·.2.2))).divNat
          ((filteredList year month data).filter (fun s => pyEqK k (sampleKey s))).length))
    ∧ ((filteredList year month data).filter (fun s => pyEqK k (sampleKey s)) = [] →
      SiteDayAverage (filteredList year month data) k = none) := by
  constructor
  · intro hne
    unfold SiteDayAverage
    rw [alookup_totalsOf, alookup_hoursOf, if_neg hne, if_neg hne]
    have hlen : 0 < ((filteredList year month data).filter (fun s => pyEqK k (sampleKey s))).length :=
      List.length_pos.mpr hne
    simp [hlen]
  · intro hemp
    unfold SiteDayAverage
    rw [alookup_totalsOf, alookup_hoursOf, if_pos hemp, if_pos hemp]

/-- C1 witness: in the three-record scenario, site `A` on 2022-07-01
has two samples (10 and 20) and site-day average 15. -/
theorem c1_stage1_site_day_average_witness :
    SiteDayAverage (filteredList 2022 7 scenarioData) (JValue.jstr siteA, dateJul1) =
      some (.fin 15) := by
  rw [(c1_stage1_site_day_average 2022 7 scenarioData (JValue.jstr siteA, dateJul1)).1 (by decide)]
  decide

/-! ## Claim C8 -/

/-- C8: every key present in the Stage-1 `totals` accumulator has an
observation count of at least 1 in the `hours` accumulator, so the
division guard's zero branch never fires: the site-day average list
keeps one entry per `totals` key. -/
theorem c8_hours_at_least_one (year month : ℤ) (data : List RawRecord)
    (hg : ∀ s ∈ filteredList year month data, goodKey (sampleKey s)) :
    (∀ e ∈ totalsOf (filteredList year month data),
      ∃ n, alookup pyEqK e.1 (hoursOf (filteredList year month data)) = some n ∧ 1 ≤ n)
    ∧ (siteDayAvgsList (filteredList year month data)).length =
        (totalsOf (filteredList year month data)).length := by
  have key : ∀ e ∈ totalsOf (filteredList year month data),
      ∃ n, alookup pyEqK e.1 (hoursOf (filteredList year month data)) = some n ∧ 1 ≤ n := by
    intro e he
    rcases provenance_totalsOf _ e he with ⟨s, hs, hks⟩
    have hgood : goodKey e.1 := by rw [hks]; exact hg s hs
    have hmem : s ∈ (filteredList year month data).filter (fun s' => pyEqK e.1 (sampleKey s')) := by
      refine List.mem_filter.mpr ⟨hs, ?_⟩
      rw [hks]
      exact pyEqK_refl_of_good (by rw [← hks]; exact hgood)
    have hne : (filteredList year month data).filter (fun s' => pyEqK e.1 (sampleKey s')) ≠ [] :=
      List.ne_nil_of_mem hmem
    refine ⟨((filteredList year month data).filter (fun s' => pyEqK e.1 (sampleKey s'))).length,
      ?_, ?_⟩
    · rw [alookup_hoursOf, if_neg hne]
    · exact List.length_pos.mpr hne
  refine ⟨key, ?_⟩
  unfold siteDayAvgsList
  refine length_filterMap_of_forall_isSome _ _ fun e he => ?_
  rcases key e he with ⟨n, hn, h1⟩
  rw [hn]
  simp only [Option.getD_some]
  rw [if_pos (by omega)]
  rfl

/-- C8 witness: the scenario input has value-hashable site ids, two
site-day keys, both with positive observation counts. -/
theorem c8_hours_at_least_one_witness :
    (∀ e ∈ totalsOf (filteredList 2022 7 scenarioData),
      ∃ n, alookup pyEqK e.1 (hoursOf (filteredList 2022 7 scenarioData)) = some n ∧ 1 ≤ n)
    ∧ (siteDayAvgsList (filteredList 2022 7 scenarioData)).length =
        (totalsOf (filteredList 2022 7 scenarioData)).length :=
  c8_hours_at_least_one 2022 7 scenarioData (by decide)

/-! ## Claim C7 -/

/-- C7: when no samples are accepted, the reporter short-circuits:
the run produces the single no-data notice outcome (no statistics, no
chart, normal return). -/
theorem c7_empty_means_no_data (year month : ℤ) (data : List RawRecord)
    (h : filteredList year month data = []) :
    runPipeline year month data = Output.noData := by
  unfold runPipeline
  rw [h]
  rfl

/-- C7 witness: the scenario input has no samples in September 2022. -/
theorem c7_empty_means_no_data_witness : runPipeline 2022 9 scenarioData = Output.noData :=
  c7_empty_means_no_data 2022 9 scenarioData (by decide)

/-! ## Month range of every parsed timestamp -/

lemma fromtimestampUTC_month {q : ℚ} {dt : DateTime} (h : fromtimestampUTC q = some dt) :
    1 ≤ dt.month ∧ dt.month ≤ 12 := by
  unfold fromtimestampUTC at h
  dsimp only at h
  split at h
  · rename_i hy
    injection h with h
    rw [← h]
    simp only
    omega
  · exact absurd h (by simp)

lemma parseDateChars_month {cs : List Char} {y : ℤ} {m d : ℕ}
    (h : parseDateChars cs = some (y, m, d)) : 1 ≤ m ∧ m ≤ 12 := by
  unfold parseDateChars at h
  split at h
  · split at h
    · dsimp only at h
      split at h
      · rename_i hok
        injection h with h
        rw [Prod.ext_iff] at h
        rcases h with ⟨_, h2⟩
        rw [Prod.ext_iff] at h2
        rcases h2 with ⟨hm, _⟩
        simp only at hm
        rw [← hm]
        exact ⟨hok.2.1, hok.2.2.1⟩
      · exact absurd h (by simp)
    · exact absurd h (by simp)
  · exact absurd h (by simp)

lemma fromisoformat_month {s : String} {dt : DateTime} (h : fromisoformat s = some dt) :
    1 ≤ dt.month ∧ dt.month ≤ 12 := by
  unfold fromisoformat at h
  split at h
  · exact absurd h (by simp)
  · rename_i y mo d hdate
    have hmo : 1 ≤ mo ∧ mo ≤ 12 := parseDateChars_month hdate
    split at h
    · injection h with h
      rw [← h]
      exact hmo
    · split at h
      · exact absurd h (by simp)
      · split at h
        · split at h
          · injection h with h
            rw [← h]
            exact hmo
          · exact absurd h (by simp)
        · split at h
          · exact absurd h (by simp)
          · split at h
            · injection h with h
              rw [← h]
              exact hmo
            · exact absurd h (by simp)

lemma parse_ts_num_month {n : JNum} {dt : DateTime} (h : parse_ts_num n = some dt) :
    1 ≤ dt.month ∧ dt.month ≤ 12 := by
  unfold parse_ts_num at h
  dsimp only at h
  split at h
  · exact fromtimestampUTC_month h
  · exact absurd h (by simp)

lemma parse_ts_month {v : JValue} {dt : DateTime} (h : parse_ts v = some dt) :
    1 ≤ dt.month ∧ dt.month ≤ 12 := by
  cases v with
  | jnum n => exact parse_ts_num_month h
  | jbool b => exact parse_ts_num_month h
  | jstr s =>
    simp only [parse_ts] at h
    split at h
    · rename_i dt' h1
      injection h with h
      rw [← h]
      exact fromisoformat_month h1
    · exact fromisoformat_month h
  | jnull => exact absurd h (by simp [parse_ts])
  | jarr => exact absurd h (by simp [parse_ts])
  | jobj => exact absurd h (by simp [parse_ts])

/-! ## Claim C9 -/

/-- C9: an out-of-range month argument (e.g. 13) matches no record -
every record is rejected by the month filter, and the run takes the
ordinary empty-result branch (the no-data notice) rather than
rejecting the argument or raising. -/
theorem c9_out_of_range_month_no_matches (year month : ℤ) (data : List RawRecord)
    (h : month < 1 ∨ 12 < month) :
    filteredList year month data = [] ∧ runPipeline year month data = Output.noData := by
  have hfl : filteredList year month data = [] := by
    unfold filteredList
    rw [List.filterMap_eq_nil_iff]
    intro rec _
    unfold normalize
    split
    · rfl
    · split
      · split
        · rfl
        · split
          · rfl
          · split
            · rfl
            · rename_i dt hts
              rw [if_neg]
              rintro ⟨-, hm⟩
              have := parse_ts_month hts
              omega
      · rfl
  refine ⟨hfl, ?_⟩
  unfold runPipeline
  rw [hfl]
  rfl

/-- C9 witness: month 13 on the scenario input (whose records do parse
to July 2022) yields no matches and the no-data outcome. -/
theorem c9_out_of_range_month_no_matches_witness :
    filteredList 2022 13 scenarioData = [] ∧ runPipeline 2022 13 scenarioData = Output.noData :=
  c9_out_of_range_month_no_matches 2022 13 scenarioData (by decide)

/-! ## Claim C6 -/

/-- C6: every record contributing to a site-day average parses to the
requested year and month (and its sample's date string is that
parsed date); a record parsing to any other year or month is
rejected. -/
theorem c6_requested_month_only (year month : ℤ) (data : List RawRecord) :
    (∀ s ∈ filteredList year month data,
      ∃ rec ∈ data, ∃ tv dt, normalize year month rec = some s ∧
        get_timestamp rec = some tv ∧ parse_ts tv = some dt ∧
        dt.year = year ∧ (dt.month : ℤ) = month ∧ s.2.1 = dateIso dt)
    ∧ (∀ (rec : RawRecord) (tv : JValue) (dt : DateTime),
        get_timestamp rec = some tv → parse_ts tv = some dt →
        (dt.year ≠ year ∨ (dt.month : ℤ) ≠ month) →
        normalize year month rec = none) := by
  constructor
  · intro s hs
    rcases List.mem_filterMap.mp hs with ⟨rec, hrec, hn⟩
    refine ⟨rec, hrec, ?_⟩
    have hn' := hn
    unfold normalize at hn'
    split at hn'
    · exact absurd hn' (by simp)
    · rename_i cv hcv
      split at hn'
      · split at hn'
        · exact absurd hn' (by simp)
        · split at hn'
          · exact absurd hn' (by simp)
          · rename_i tv htv
            split at hn'
            · exact absurd hn' (by simp)
            · rename_i dt hdt
              split at hn'
              · rename_i hym
                split at hn'
                · exact absurd hn' (by simp)
                · rename_i site hsite
                  injection hn' with hn'
                  refine ⟨tv, dt, hn, htv, hdt, hym.1, hym.2, ?_⟩
                  rw [← hn']
              · exact absurd hn' (by simp)
      · exact absurd hn' (by simp)
  · intro rec tv dt htv hdt hne
    unfold normalize
    split
    · rfl
    · rename_i cv hcv
      split
      · split
        · rfl
        · split
          · rfl
          · rename_i tv' htv'
            rw [htv] at htv'
            injection htv' with htv'
            subst htv'
            split
            · rfl
            · rename_i dt' hdt'
              rw [hdt] at hdt'
              injection hdt' with hdt'
              subst hdt'
              rw [if_neg]
              rintro ⟨h1, h2⟩
              rcases hne with hne | hne
              · exact hne h1
              · exact hne h2
      · rfl

/-- C6 witness: the July record is rejected when August is requested,
via its parsed timestamp 2022-07-01. -/
theorem c6_requested_month_only_witness : normalize 2022 8 recA0 = none :=
  (c6_requested_month_only 2022 8 [recA0]).2 recA0 (.jstr tsJul1a) dtJul1a
    (by decide) (by decide) (Or.inr (by decide))

/-! ## Claim C3 (corrected: no finiteness check) -/

/-- C3 counterexample: a record whose count is the non-finite float
`inf` is accepted by the normalizer (the code checks only
`isinstance` and `<= 0`), contradicting the claim that a count that
is not a finite number is always rejected. -/
theorem c3_counterexample :
    ¬ (∀ (year month : ℤ) (rec : RawRecord) (v : JValue),
        get_counts rec = some v → isFiniteNumber v = false →
        normalize year month rec = none) := by
  intro h
  exact absurd (h 2022 7 recInf (.jnum .inf) (by decide) (by decide)) (by decide)

/-- C3 (amended): the normalizer rejects a record whose count field is
absent, not a number (`isinstance(cnt, (int, float))` fails), or
`<= 0` - in particular counts 0 and -5 - but values that pass those
checks are kept even when not finite (`inf`, `nan`). -/
theorem c3_count_validation (year month : ℤ) (rec : RawRecord) :
    (get_counts rec = none → normalize year month rec = none)
    ∧ (∀ v, get_counts rec = some v → isNum v = false → normalize year month rec = none)
    ∧ (∀ v, get_counts rec = some v → (numVal v).le0 = true → normalize year month rec = none)
    ∧ (get_counts rec = some (.jnum (.fin 0)) → normalize year month rec = none)
    ∧ (get_counts rec = some (.jnum (.fin (-5))) → normalize year month rec = none) := by
  have habsent : get_counts rec = none → normalize year month rec = none := by
    intro h
    unfold normalize
    rw [h]
  have hnotnum : ∀ v, get_counts rec = some v → isNum v = false →
      normalize year month rec = none := by
    intro v h hv
    unfold normalize
    rw [h]
    dsimp only
    simp [hv]
  have hle0 : ∀ v, get_counts rec = some v → (numVal v).le0 = true →
      normalize year month rec = none := by
    intro v h hv
    unfold normalize
    rw [h]
    dsimp only
    cases hn : isNum v
    · simp
    · simp [hv]
  exact ⟨habsent, hnotnum, hle0,
    fun h => hle0 _ h (by decide), fun h => hle0 _ h (by decide)⟩

/-- C3 witness: records with counts 0 and -5 are rejected whatever
their other fields. -/
theorem c3_count_validation_witness :
    normalize 2022 7 recZero = none ∧ normalize 2022 7 recNeg5 = none :=
  ⟨(c3_count_validation 2022 7 recZero).2.2.2.1 (by decide),
   (c3_count_validation 2022 7 recNeg5).2.2.2.2 (by decide)⟩

/-! ## Claim C4 (corrected: value, not magnitude) -/

/-- C4 counterexample: at the numeric timestamp -2*10^12 (magnitude
above 10^12) the code does not divide by 1000 - it treats the value
as seconds, and `fromtimestamp` then fails (year out of range), so the
record is rejected; the claim's magnitude-based reading instead
produces the instant -2*10^9 s = 1906-08-16T20:26:40Z. -/
theorem c4_counterexample :
    ¬ (∀ q : ℚ, parse_ts_num (.fin q) =
        if specMagnitudeLarge q then fromtimestampUTC (qdivNat q 1000)
        else fromtimestampUTC q) := by
  intro h
  exact absurd (h (mkRat (-2000000000000) 1)) (by decide)

/-- C4 (amended): a numeric timestamp is interpreted as milliseconds
(divided by 1000) exactly when its value exceeds 10^12, and as epoch
seconds otherwise, converted to a UTC datetime; in particular
1700000000 and 1700000000000 parse to the same instant,
2023-11-14T22:13:20Z. -/
theorem c4_numeric_timestamps :
    (∀ q : ℚ, (1000000000000 : ℚ) < q →
      parse_ts_num (.fin q) = fromtimestampUTC (qdivNat q 1000))
    ∧ (∀ q : ℚ, ¬ (1000000000000 : ℚ) < q → parse_ts_num (.fin q) = fromtimestampUTC q)
    ∧ parse_ts (.jnum (.fin 1700000000)) = parse_ts (.jnum (.fin 1700000000000))
    ∧ parse_ts (.jnum (.fin 1700000000)) =
        some { year := 2023, month := 11, day := 14, hour := 22, minute := 13, second := 20,
               frac := 0, tzoff := some 0 } := by
  refine ⟨?_, ?_, by decide, by decide⟩
  · intro q hq
    unfold parse_ts_num
    have : JNum.gtTrillion (.fin q) = true := by
      unfold JNum.gtTrillion
      exact decide_eq_true hq
    rw [this]
    rfl
  · intro q hq
    unfold parse_ts_num
    have : JNum.gtTrillion (.fin q) = false := by
      unfold JNum.gtTrillion
      exact decide_eq_false hq
    rw [this]
    rfl

/-- C4 witness: 2*10^12 exceeds the threshold and is divided by 1000. -/
theorem c4_numeric_timestamps_witness :
    parse_ts_num (.fin 2000000000000) = fromtimestampUTC (qdivNat 2000000000000 1000) :=
  c4_numeric_timestamps.1 2000000000000 (by decide)

/-! ## Claim C5 (corrected: every `Z` is replaced, not a trailing one) -/

/-- C5 counterexample: on `2022-07-15Z10:00` (its `Z` is the ISO
separator, not trailing) the code's replace-all turns it into an
unparseable string and rejects the record, while the claim's
trailing-`Z`-only procedure parses it (any separator character is
accepted) to naive 2022-07-15T10:00. -/
theorem c5_counterexample :
    parse_ts (.jstr sepZstr) ≠ specStrParse sepZstr
    ∧ parse_ts (.jstr sepZstr) = none
    ∧ specStrParse sepZstr =
        some { year := 2022, month := 7, day := 15, hour := 10, minute := 0, second := 0,
               frac := 0, tzoff := none } := by
  refine ⟨by decide, by decide, by decide⟩

/-- C5 (amended): string parsing first attempts a strict ISO-8601
parse after replacing every occurrence of `Z` by `+00:00`; if that
fails it truncates at the first `.` and retries the same parse
(replacement included); if both fail the record is rejected.  The two
example strings parse to the calendar date 2022-07-15. -/
theorem c5_string_timestamps :
    (∀ (s : String) (dt : DateTime),
      fromisoformat (replaceZ s) = some dt → parse_ts (.jstr s) = some dt)
    ∧ (∀ s : String, fromisoformat (replaceZ s) = none →
        parse_ts (.jstr s) = fromisoformat (replaceZ (dotTrunc s)))
    ∧ (∀ s : String, fromisoformat (replaceZ s) = none →
        fromisoformat (replaceZ (dotTrunc s)) = none → parse_ts (.jstr s) = none)
    ∧ (parse_ts (.jstr tsJul15)).map dateIso = some dateJul15
    ∧ (parse_ts (.jstr tsJul15ms)).map dateIso = some dateJul15 := by
  have h1 : ∀ (s : String) (dt : DateTime),
      fromisoformat (replaceZ s) = some dt → parse_ts (.jstr s) = some dt := by
    intro s dt h
    simp only [parse_ts, h]
  have h2 : ∀ s : String, fromisoformat (replaceZ s) = none →
      parse_ts (.jstr s) = fromisoformat (replaceZ (dotTrunc s)) := by
    intro s h
    simp only [parse_ts, h]
  exact ⟨h1, h2, fun s ha hb => by rw [h2 s ha, hb], by decide, by decide⟩

/-- C5 witness: the plain trailing-`Z` example parses through the
first attempt. -/
theorem c5_string_timestamps_witness : parse_ts (.jstr tsJul15) = some dtJul15 :=
  c5_string_timestamps.1 tsJul15 dtJul15 (by decide)

/-! ## Claim C10 -/

/-- C10: site ids are used verbatim as dict-key components - a string
site id never collides with a numeric one - so the records with site
ids `"1"` (string) and `1` (number) on the same date produce two
distinct site-day keys, two separate site-day averages (10 and 30),
and a cross-site day average of 20 built from one value per key. -/
theorem c10_verbatim_site_keys :
    (∀ (t : String) (q : ℚ) (d e : String),
      pyEqK (JValue.jstr t, d) (JValue.jnum (.fin q), e) = false)
    ∧ filteredList 2022 7 data10 =
        [(.jstr siteOne, dateJul15, .fin 10), (.jnum (.fin 1), dateJul15, .fin 30)]
    ∧ (totalsOf (filteredList 2022 7 data10)).length = 2
    ∧ daySeries (filteredList 2022 7 data10) = [(dateJul15, .fin 20)]
    ∧ runPipeline 2022 7 data10 =
        Output.report 2 [.fin 10, .fin 30] [(dateJul15, .fin 20)] (chartFileName 2022 7) := by
  refine ⟨?_, by decide, by decide, by decide, by decide⟩
  intro t q d e
  simp [pyEqK, pyEq, keyView]

/-- C10 witness: the two concrete keys of the example are distinct. -/
theorem c10_verbatim_site_keys_witness :
    pyEqK (JValue.jstr siteOne, dateJul15) (JValue.jnum (.fin 1), dateJul15) = false :=
  c10_verbatim_site_keys.1 siteOne 1 dateJul15 dateJul15

/-! ## Stage-2 support lemmas -/

lemma foldl_append_singleton {δ : Type} (vs : List δ) :
    ∀ acc : List δ, vs.foldl (fun l v => l ++ [v]) acc = acc ++ vs := by
  induction vs with
  | nil => intro acc; simp
  | cons v vs ih =>
    intro acc
    simp only [List.foldl]
    rw [ih]
    simp

lemma filterMap_eq_map_of_some {γ δ : Type} (F : γ → Option δ) (G : γ → δ) :
    ∀ l : List γ, (∀ e ∈ l, F e = some (G e)) → l.filterMap F = l.map G := by
  intro l
  induction l with
  | nil => intro _; rfl
  | cons x rest ih =>
    intro h
    simp only [List.filterMap_cons, h x (List.mem_cons_self x rest), List.map_cons]
    rw [ih fun e he => h e (List.mem_cons_of_mem x he)]

lemma map_filter_by_key {κ α₁ α₂ δ : Type} (p : κ → Bool) (h : κ → δ)
    (g₁ : κ × α₁ → δ) (g₂ : κ × α₂ → δ) :
    ∀ (m₁ : List (κ × α₁)) (m₂ : List (κ × α₂)),
      m₁.map (·.1) = m₂.map (·.1) →
      (∀ e ∈ m₁, g₁ e = h e.1) →
      (∀ e ∈ m₂, g₂ e = h e.1) →
      (m₁.filter fun e => p e.1).map g₁ = (m₂.filter fun e => p e.1).map g₂ := by
  intro m₁
  induction m₁ with
  | nil =>
    intro m₂ hk _ _
    cases m₂ with
    | nil => rfl
    | cons y rest₂ => simp at hk
  | cons x rest ih =>
    intro m₂ hk h1 h2
    cases m₂ with
    | nil => simp at hk
    | cons y rest₂ =>
      simp only [List.map_cons, List.cons.injEq] at hk
      have hrec := ih rest₂ hk.2 (fun e he => h1 e (List.mem_cons_of_mem x he))
        (fun e he => h2 e (List.mem_cons_of_mem y he))
      by_cases hp : p x.1 = true
      · simp only [List.filter_cons]
        rw [if_pos hp, if_pos (show p y.1 = true by rw [← hk.1]; exact hp)]
        simp only [List.map_cons]
        rw [h1 x (List.mem_cons_self x rest), h2 y (List.mem_cons_self y rest₂), hk.1, hrec]
      · simp only [List.filter_cons]
        rw [if_neg hp, if_neg (show ¬ p y.1 = true by rw [← hk.1]; exact hp)]
        try exact hrec

lemma mem_insertStr (d x : String) : ∀ l : List String, x ∈ insertStr d l ↔ x = d ∨ x ∈ l := by
  intro l
  induction l with
  | nil => simp [insertStr]
  | cons e rest ih =>
    simp only [insertStr]
    by_cases hc : charsLe d.data e.data
    · simp only [if_pos hc, List.mem_cons]
      try tauto
    · simp only [if_neg hc, List.mem_cons, ih]
      try tauto

lemma mem_sortStrs (x : String) : ∀ l : List String, x ∈ sortStrs l ↔ x ∈ l := by
  intro l
  induction l with
  | nil => simp [sortStrs]
  | cons e rest ih =>
    simp only [sortStrs, mem_insertStr, List.mem_cons, ih]

lemma good_totals_keys {ss : List Sample} (hg : ∀ s ∈ ss, goodKey (sampleKey s)) :
    ∀ e ∈ totalsOf ss, goodKey e.1 := by
  intro e he
  rcases provenance_totalsOf ss e he with ⟨s, hs, h1⟩
  rw [h1]
  exact hg s hs

lemma good_hours_keys {ss : List Sample} (hg : ∀ s ∈ ss, goodKey (sampleKey s)) :
    ∀ e ∈ hoursOf ss, goodKey e.1 := by
  intro e he
  rcases provenance_hoursOf ss e he with ⟨s, hs, h1⟩
  rw [h1]
  exact hg s hs

lemma matching_ne_nil_of_provenance {ss : List Sample} {k : SiteKey} (hgood : goodKey k)
    (hprov : ∃ s ∈ ss, k = sampleKey s) :
    (ss.filter fun s => pyEqK k (sampleKey s)) ≠ [] := by
  rcases hprov with ⟨s, hs, h1⟩
  refine List.ne_nil_of_mem (List.mem_filter.mpr ⟨hs, ?_⟩)
  rw [h1]
  exact pyEqK_refl_of_good (h1 ▸ hgood)

lemma hours_entry_char {ss : List Sample} (hg : ∀ s ∈ ss, goodKey (sampleKey s)) :
    ∀ e ∈ hoursOf ss,
      alookup pyEqK e.1 (totalsOf ss) =
        some (sumJ ((ss.filter fun s => pyEqK e.1 (sampleKey s)).map (·.2.2)))
      ∧ e.2 = (ss.filter fun s => pyEqK e.1 (sampleKey s)).length
      ∧ alookup pyEqK e.1 (hoursOf ss) = some e.2 := by
  intro e he
  have hgood : goodKey e.1 := good_hours_keys hg e he
  have hne := matching_ne_nil_of_provenance hgood (provenance_hoursOf ss e he)
  have hT := alookup_totalsOf ss e.1
  rw [if_neg hne] at hT
  have hH := alookup_hoursOf ss e.1
  rw [if_neg hne] at hH
  have hself := self_alookup pyEqK pyEqK_symm (hoursOf ss) (pairwise_hoursOf ss) e he
    (pyEqK_refl_of_good hgood)
  refine ⟨hT, ?_, hself⟩
  rw [hself] at hH
  injection hH

lemma totals_entry_char {ss : List Sample} (hg : ∀ s ∈ ss, goodKey (sampleKey s)) :
    ∀ e ∈ totalsOf ss,
      e.2 = sumJ ((ss.filter fun s => pyEqK e.1 (sampleKey s)).map (·.2.2))
      ∧ alookup pyEqK e.1 (hoursOf ss) =
          some (ss.filter fun s => pyEqK e.1 (sampleKey s)).length
      ∧ 1 ≤ (ss.filter fun s => pyEqK e.1 (sampleKey s)).length := by
  intro e he
  have hgood : goodKey e.1 := good_totals_keys hg e he
  have hne := matching_ne_nil_of_provenance hgood (provenance_totalsOf ss e he)
  have hT := alookup_totalsOf ss e.1
  rw [if_neg hne] at hT
  have hH := alookup_hoursOf ss e.1
  rw [if_neg hne] at hH
  have hself := self_alookup pyEqK pyEqK_symm (totalsOf ss) (pairwise_totalsOf ss) e he
    (pyEqK_refl_of_good hgood)
  refine ⟨?_, hH, ?_⟩
  · rw [hself] at hT
    injection hT
  · have := List.length_pos.mpr hne
    omega

lemma alookup_dayMapOf_raw (ss : List Sample) (d : String) :
    alookup strEq d (dayMapOf ss) =
      if ((hoursOf ss).filter fun e => strEq d e.1.2) = [] then none
      else some (((hoursOf ss).filter fun e => strEq d e.1.2).map
        fun e => ((alookup pyEqK e.1 (totalsOf ss)).getD (.fin 0)).divNat
          ((alookup pyEqK e.1 (hoursOf ss)).getD 0)) := by
  have hfold : dayMapOf ss =
      ((hoursOf ss).map fun e => (e.1.2,
          ((alookup pyEqK e.1 (totalsOf ss)).getD (.fin 0)).divNat
            ((alookup pyEqK e.1 (hoursOf ss)).getD 0))).foldl
        (fun m p => aupd strEq p.1 ((fun (v : JNum) (l : List JNum) => l ++ [v]) p.2)
          ((fun (v : JNum) (l : List JNum) => l ++ [v]) p.2 []) m) [] := by
    unfold dayMapOf pushDay
    rw [List.foldl_map]
  have h := alookup_foldl_aupd strEq strEq_symm (fun a b hab c => strEq_trans_eq hab c)
    (fun (v : JNum) (l : List JNum) => l ++ [v]) []
    ((hoursOf ss).map fun e => (e.1.2,
      ((alookup pyEqK e.1 (totalsOf ss)).getD (.fin 0)).divNat
        ((alookup pyEqK e.1 (hoursOf ss)).getD 0))) [] d
  have hfl : (((hoursOf ss).map fun e => (e.1.2,
        ((alookup pyEqK e.1 (totalsOf ss)).getD (.fin 0)).divNat
          ((alookup pyEqK e.1 (hoursOf ss)).getD 0))).filter fun p => strEq d p.1) =
      ((hoursOf ss).filter fun e => strEq d e.1.2).map fun e => (e.1.2,
        ((alookup pyEqK e.1 (totalsOf ss)).getD (.fin 0)).divNat
          ((alookup pyEqK e.1 (hoursOf ss)).getD 0)) := by
    rw [List.filter_map]
    rfl
  by_cases hemp : ((hoursOf ss).filter fun e => strEq d e.1.2) = []
  · rw [if_pos hemp, hfold]
    exact h.2.1 rfl (by rw [hfl, hemp]; rfl)
  · rw [if_neg hemp, hfold]
    have hne : (((hoursOf ss).map fun e => (e.1.2,
          ((alookup pyEqK e.1 (totalsOf ss)).getD (.fin 0)).divNat
            ((alookup pyEqK e.1 (hoursOf ss)).getD 0))).filter fun p => strEq d p.1) ≠ [] := by
      rw [hfl]
      simpa using hemp
    have hres := h.2.2 rfl hne
    rw [hres, hfl, List.map_map, foldl_append_singleton]
    simp [Function.comp]

lemma dayMap_keys_provenance (ss : List Sample) :
    ∀ en ∈ dayMapOf ss, ∃ e ∈ hoursOf ss, en.1 = e.1.2 := by
  intro en hen
  have hfold : dayMapOf ss =
      ((hoursOf ss).map fun e => (e.1.2,
          ((alookup pyEqK e.1 (totalsOf ss)).getD (.fin 0)).divNat
            ((alookup pyEqK e.1 (hoursOf ss)).getD 0))).foldl
        (fun m p => aupd strEq p.1 ((fun (v : JNum) (l : List JNum) => l ++ [v]) p.2)
          ((fun (v : JNum) (l : List JNum) => l ++ [v]) p.2 []) m) [] := by
    unfold dayMapOf pushDay
    rw [List.foldl_map]
  rw [hfold] at hen
  rcases foldl_aupd_provenance strEq (fun (v : JNum) (l : List JNum) => l ++ [v]) []
      ((hoursOf ss).map fun e => (e.1.2,
        ((alookup pyEqK e.1 (totalsOf ss)).getD (.fin 0)).divNat
          ((alookup pyEqK e.1 (hoursOf ss)).getD 0))) [] en hen with
    ⟨e', he', _⟩ | ⟨p, hp, h1⟩
  · simp at he'
  · rcases List.mem_map.mp hp with ⟨e, he, h2⟩
    exact ⟨e, he, by rw [h1, ← h2]⟩

/-! ## Claim C2 -/

/-- C2: for every calendar date in the day series, the series value is
the unweighted arithmetic mean (sum divided by count) of the site-day
averages whose key's date component is that date, with pairwise
distinct sites contributing one value each; and every date occurring
among the accepted samples appears in the series. -/
theorem c2_cross_site_day_average (year month : ℤ) (data : List RawRecord)
    (hg : ∀ s ∈ filteredList year month data, goodKey (sampleKey s)) :
    (∀ d v, (d, v) ∈ daySeries (filteredList year month data) →
      (∃ s ∈ filteredList year month data, s.2.1 = d)
      ∧ v = meanJ (((siteDayEntries (filteredList year month data)).filter
            fun e => strEq e.1.2 d).map (·.2))
      ∧ List.Pairwise (fun a b => pyEq a.1.1 b.1.1 = false)
          ((siteDayEntries (filteredList year month data)).filter fun e => strEq e.1.2 d))
    ∧ (∀ d, (∃ s ∈ filteredList year month data, s.2.1 = d) →
        ∃ v, (d, v) ∈ daySeries (filteredList year month data)) := by
  set ss := filteredList year month data with hss
  have hmapG : siteDayEntries ss = (totalsOf ss).map
      fun e => (e.1, e.2.divNat ((alookup pyEqK e.1 (hoursOf ss)).getD 0)) := by
    unfold siteDayEntries
    refine filterMap_eq_map_of_some _ _ _ fun e he => ?_
    rcases totals_entry_char hg e he with ⟨-, hH, hlen⟩
    show (let h := (alookup pyEqK e.1 (hoursOf ss)).getD 0;
      if 0 < h then some (e.1, e.2.divNat h) else none) = _
    rw [hH]
    simp only [Option.getD_some]
    rw [if_pos (by omega)]
  have hG1 : ∀ e ∈ hoursOf ss,
      (fun e : SiteKey × ℕ => ((alookup pyEqK e.1 (totalsOf ss)).getD (.fin 0)).divNat
        ((alookup pyEqK e.1 (hoursOf ss)).getD 0)) e =
      (fun k : SiteKey => (sumJ ((ss.filter fun s => pyEqK k (sampleKey s)).map (·.2.2))).divNat
        ((ss.filter fun s => pyEqK k (sampleKey s)).length)) e.1 := by
    intro e he
    rcases hours_entry_char hg e he with ⟨hT, hlen, hself⟩
    simp only
    rw [hT, hself, Option.getD_some, Option.getD_some, hlen]
  have hG2 : ∀ e ∈ totalsOf ss,
      (fun e : SiteKey × JNum => e.2.divNat ((alookup pyEqK e.1 (hoursOf ss)).getD 0)) e =
      (fun k : SiteKey => (sumJ ((ss.filter fun s => pyEqK k (sampleKey s)).map (·.2.2))).divNat
        ((ss.filter fun s => pyEqK k (sampleKey s)).length)) e.1 := by
    intro e he
    rcases totals_entry_char hg e he with ⟨hv, hH, -⟩
    simp only
    rw [hv, hH, Option.getD_some]
  have hlist : ∀ d : String,
      ((hoursOf ss).filter fun e => strEq d e.1.2).map
        (fun e => ((alookup pyEqK e.1 (totalsOf ss)).getD (.fin 0)).divNat
          ((alookup pyEqK e.1 (hoursOf ss)).getD 0)) =
      ((siteDayEntries ss).filter fun e => strEq e.1.2 d).map (·.2) := by
    intro d
    have hflip : ((siteDayEntries ss).filter fun e => strEq e.1.2 d) =
        ((siteDayEntries ss).filter fun e => strEq d e.1.2) :=
      List.filter_congr fun e _ => strEq_symm e.1.2 d
    rw [hflip, hmapG, List.filter_map, List.map_map]
    exact map_filter_by_key (fun k => strEq d k.2)
      (fun k : SiteKey => (sumJ ((ss.filter fun s => pyEqK k (sampleKey s)).map (·.2.2))).divNat
        ((ss.filter fun s => pyEqK k (sampleKey s)).length))
      _ _ (hoursOf ss) (totalsOf ss) (totals_hours_keys ss).symm hG1 hG2
  constructor
  · intro d v hdv
    rcases List.mem_map.mp hdv with ⟨d', hd', heq⟩
    rw [Prod.mk.injEq] at heq
    rcases heq with ⟨hd1, hv1⟩
    subst hd1
    have hdk : d' ∈ (dayMapOf ss).map (·.1) := by
      unfold sortedDays at hd'
      exact (mem_sortStrs d' _).mp hd'
    rcases List.mem_map.mp hdk with ⟨en, hen, hend⟩
    rcases dayMap_keys_provenance ss en hen with ⟨e, he, hend2⟩
    have hed : e.1.2 = d' := by rw [← hend2, hend]
    have hfil : e ∈ (hoursOf ss).filter fun e' => strEq d' e'.1.2 := by
      refine List.mem_filter.mpr ⟨he, ?_⟩
      unfold strEq
      rw [hed]
      exact decide_eq_true rfl
    have hemp : ((hoursOf ss).filter fun e' => strEq d' e'.1.2) ≠ [] :=
      List.ne_nil_of_mem hfil
    have hraw := alookup_dayMapOf_raw ss d'
    rw [if_neg hemp] at hraw
    refine ⟨?_, ?_, ?_⟩
    · rcases provenance_hoursOf ss e he with ⟨s, hs, h1⟩
      refine ⟨s, hs, ?_⟩
      have : (sampleKey s).2 = e.1.2 := by rw [← h1]
      rw [← hed, ← this]
      rfl
    · rw [← hv1, hraw]
      simp only [Option.getD_some]
      rw [hlist d']
    · have hpw : List.Pairwise (fun a b => pyEqK a.1 b.1 = false) (siteDayEntries ss) := by
        rw [hmapG]
        exact List.pairwise_map.mpr (pairwise_totalsOf ss)
      refine (hpw.filter _).imp_of_mem ?_
      intro a b ha hb hab
      have hda : a.1.2 = d' := by
        have := (List.mem_filter.mp ha).2
        unfold strEq at this
        exact of_decide_eq_true this
      have hdb : b.1.2 = d' := by
        have := (List.mem_filter.mp hb).2
        unfold strEq at this
        exact of_decide_eq_true this
      unfold pyEqK at hab
      rw [hda, hdb] at hab
      simpa using hab
  · rintro d ⟨s, hs, hsd⟩
    have hgood : goodKey (sampleKey s) := hg s hs
    have hmem : s ∈ ss.filter fun s' => pyEqK (sampleKey s) (sampleKey s') :=
      List.mem_filter.mpr ⟨hs, pyEqK_refl_of_good hgood⟩
    have hne := List.ne_nil_of_mem hmem
    have hH := alookup_hoursOf ss (sampleKey s)
    rw [if_neg hne] at hH
    rcases alookup_some_key pyEqK (sampleKey s) (hoursOf ss) hH with ⟨e, he, hke, -⟩
    have hed : e.1.2 = d := by
      unfold pyEqK at hke
      simp only [Bool.and_eq_true, decide_eq_true_eq] at hke
      rw [← hke.2, ← hsd]
      rfl
    have hfil : e ∈ (hoursOf ss).filter fun e' => strEq d e'.1.2 := by
      refine List.mem_filter.mpr ⟨he, ?_⟩
      unfold strEq
      rw [hed]
      exact decide_eq_true rfl
    have hne2 : ((hoursOf ss).filter fun e' => strEq d e'.1.2) ≠ [] :=
      List.ne_nil_of_mem hfil
    have hraw := alookup_dayMapOf_raw ss d
    rw [if_neg hne2] at hraw
    rcases alookup_some_key strEq d (dayMapOf ss) hraw with ⟨en, hen, hden, -⟩
    have hdk : d ∈ (dayMapOf ss).map (·.1) := by
      refine List.mem_map.mpr ⟨en, hen, ?_⟩
      unfold strEq at hden
      exact (of_decide_eq_true hden).symm
    have hds : d ∈ sortedDays ss := by
      unfold sortedDays
      exact (mem_sortStrs d _).mpr hdk
    exact ⟨meanJ ((alookup strEq d (dayMapOf ss)).getD []),
      List.mem_map.mpr ⟨d, hds, rfl⟩⟩

/-- C2 witness: in the three-record scenario the day 2022-07-01 has
cross-site average (15 + 100) / 2 = 57.5, one value per site. -/
theorem c2_cross_site_day_average_witness :
    (JNum.fin (mkRat 115 2)) = meanJ (((siteDayEntries (filteredList 2022 7 scenarioData)).filter
        fun e => strEq e.1.2 dateJul1).map (·.2))
    ∧ List.Pairwise (fun a b => pyEq a.1.1 b.1.1 = false)
        ((siteDayEntries (filteredList 2022 7 scenarioData)).filter
          fun e => strEq e.1.2 dateJul1) :=
  ⟨((c2_cross_site_day_average 2022 7 scenarioData (by decide)).1 dateJul1
      (JNum.fin (mkRat 115 2)) (by decide)).2.1,
   ((c2_cross_site_day_average 2022 7 scenarioData (by decide)).1 dateJul1
      (JNum.fin (mkRat 115 2)) (by decide)).2.2⟩

end SbCat
